import Mathlib

/-!
Verification of the docscribe documentation pipeline.

Shallow embedding of the core operations of the repository:
text chunking (`utils/context_helpers.py`), the file mutator
(`io/file_manager.py`), the generation client retry loop
(`api/openai_client.py`), the language-adapter insertion functions
(`parser/python_parser.py`, `parser/css_parser.py`,
`parser/html_parser.py`, `parser/java_parser.py`) and file discovery
(`io/file_manager.py`).  External libraries (nltk, aiohttp, ast/astor,
BeautifulSoup) are modelled as explicit parameters or as input data;
the repository's own control flow is translated line by line.
-/

namespace ContextHelpers

/-- Model of Python `str.join`: `joinSep sep l` concatenates the elements
of `l` separated by `sep`. -/
def joinSep (sep : String) : List String → String
  | [] => ""
  | [s] => s
  | s :: s' :: rest => s ++ sep ++ joinSep sep (s' :: rest)

/-- The loop of `chunk_text` from `utils/context_helpers.py`.
`current` is `current_chunk`; on overflow the current chunk is emitted
(even when it is empty) and the sentence starts a new chunk; at the end
the current chunk is emitted only when non-empty.  `maxLength` is an
`Int` because the Python parameter is an unchecked `int`. -/
def chunkGo (maxLength : Int) : List String → String → List String
  | [], current => if current ≠ "" then [current] else []
  | s :: rest, current =>
    if (current.length : Int) + (s.length : Int) + 1 ≤ maxLength then
      chunkGo maxLength rest (if current = "" then s else current ++ " " ++ s)
    else
      current :: chunkGo maxLength rest s

/-- `chunk_text` from `utils/context_helpers.py`, over the sentence list
produced by the (external) `nltk.sent_tokenize`. -/
def chunk_text (sentences : List String) (maxLength : Int) : List String :=
  chunkGo maxLength sentences ""

end ContextHelpers

namespace ContextHelpers

lemma space_len : (" " : String).length = 1 := rfl

lemma empty_len : ("" : String).length = 0 := rfl

lemma append_space_ne_empty (a b : String) : a ++ " " ++ b ≠ "" := by
  intro h
  have h1 := congrArg String.length h
  rw [String.length_append, String.length_append, space_len, empty_len] at h1
  omega

lemma chunkGo_sound (maxLength : Int) (S : List String) (hpos : 0 ≤ maxLength) :
    ∀ (rest : List String) (current : String),
      ((current.length : Int) ≤ maxLength ∨ current ∈ S) →
      (∀ s ∈ rest, s ∈ S) →
      ∀ c ∈ chunkGo maxLength rest current,
        (c.length : Int) ≤ maxLength ∨ c ∈ S := by
  intro rest
  induction rest with
  | nil =>
    intro current hcur _ c hc
    by_cases h : current = "" <;> simp [chunkGo, h] at hc
    subst hc; exact hcur
  | cons s rest ih =>
    intro current hcur hrest c hc
    rw [chunkGo] at hc
    by_cases h0 : current = ""
    · subst h0
      rw [if_pos rfl] at hc
      split at hc
      · rename_i hfit
        rw [empty_len] at hfit
        refine ih _ (Or.inl ?_) (fun t ht => hrest t (List.mem_cons_of_mem _ ht)) c hc
        push_cast at hfit
        omega
      · rcases List.mem_cons.mp hc with rfl | hc'
        · left; rw [empty_len]; push_cast; omega
        · exact ih s (Or.inr (hrest s (List.mem_cons_self s rest)))
            (fun t ht => hrest t (List.mem_cons_of_mem _ ht)) c hc'
    · rw [if_neg h0] at hc
      split at hc
      · rename_i hfit
        refine ih _ (Or.inl ?_) (fun t ht => hrest t (List.mem_cons_of_mem _ ht)) c hc
        rw [String.length_append, String.length_append, space_len]
        push_cast
        omega
      · rcases List.mem_cons.mp hc with rfl | hc'
        · exact hcur
        · exact ih s (Or.inr (hrest s (List.mem_cons_self s rest)))
            (fun t ht => hrest t (List.mem_cons_of_mem _ ht)) c hc'

lemma joinSep_cons_ne (s : String) (l : List String) (h : l ≠ []) :
    joinSep " " (s :: l) = s ++ " " ++ joinSep " " l := by
  cases l with
  | nil => exact absurd rfl h
  | cons x xs => rfl

lemma joinSep_glue (a b : String) (l : List String) :
    joinSep " " ((a ++ " " ++ b) :: l) = a ++ " " ++ joinSep " " (b :: l) := by
  cases l with
  | nil => rfl
  | cons x xs => simp [joinSep, String.append_assoc]

lemma chunkGo_ne_nil (maxLength : Int) :
    ∀ (rest : List String) (current : String), current ≠ "" →
      chunkGo maxLength rest current ≠ [] := by
  intro rest
  induction rest with
  | nil => intro current h; simp [chunkGo, h]
  | cons s rest ih =>
    intro current h
    rw [chunkGo, if_neg h]
    split
    · exact ih _ (append_space_ne_empty current s)
    · simp

lemma chunkGo_joinSep (maxLength : Int) :
    ∀ (rest : List String) (current : String), current ≠ "" →
      (∀ s ∈ rest, s ≠ "") →
      joinSep " " (chunkGo maxLength rest current) = joinSep " " (current :: rest) := by
  intro rest
  induction rest with
  | nil => intro current h _; simp [chunkGo, h, joinSep]
  | cons s rest ih =>
    intro current h hrest
    rw [chunkGo, if_neg h]
    split
    · rw [ih (current ++ " " ++ s) (append_space_ne_empty current s)
        (fun t ht => hrest t (List.mem_cons_of_mem _ ht))]
      rw [joinSep_glue]
      rfl
    · have hs : s ≠ "" := hrest s (List.mem_cons_self s rest)
      rw [joinSep_cons_ne current _ (chunkGo_ne_nil maxLength rest s hs)]
      rw [ih s hs (fun t ht => hrest t (List.mem_cons_of_mem _ ht))]
      rfl

lemma chunkGo_nonpos (maxLength : Int) (hmax : maxLength ≤ 0) :
    ∀ (rest : List String) (current : String), rest ≠ [] →
      (∀ s ∈ rest, s ≠ "") →
      chunkGo maxLength rest current = current :: rest := by
  intro rest
  induction rest with
  | nil => intro current h; exact absurd rfl h
  | cons s rest ih =>
    intro current _ hrest
    rw [chunkGo]
    split
    · rename_i hfit
      exfalso
      have h1 : (0 : Int) ≤ (current.length : Int) := Int.natCast_nonneg _
      have h2 : (0 : Int) ≤ (s.length : Int) := Int.natCast_nonneg _
      omega
    · cases rest with
      | nil =>
        have hs : s ≠ "" := hrest s (List.mem_cons_self s [])
        simp [chunkGo, hs]
      | cons r rs =>
        rw [ih s (by simp) (fun t ht => hrest t (List.mem_cons_of_mem _ ht))]

end ContextHelpers

open ContextHelpers in
/-- C3: for every sentence list and every `maxLength > 0`, every chunk
returned by `chunk_text` has length `≤ maxLength`, or is one of the
input sentences whose own length exceeds `maxLength` (kept whole, never
truncated). -/
theorem chunk_text_length_bound (sentences : List String) (maxLength : Int)
    (hpos : 0 < maxLength) :
    ∀ c ∈ chunk_text sentences maxLength,
      (c.length : Int) ≤ maxLength ∨
        (c ∈ sentences ∧ maxLength < (c.length : Int)) := by
  intro c hc
  have h := chunkGo_sound maxLength sentences (by omega) sentences ""
    (Or.inl (by rw [empty_len]; push_cast; omega)) (fun s hs => hs) c hc
  by_cases hle : (c.length : Int) ≤ maxLength
  · exact Or.inl hle
  · rcases h with h | h
    · exact Or.inl h
    · exact Or.inr ⟨h, by omega⟩

open ContextHelpers in
/-- Witness for C3 at `sentences = ["ab", "cd"]`, `maxLength = 5`,
chunk `"ab cd"`. -/
theorem chunk_text_length_bound_witness :
    (("ab cd".length : Int) ≤ 5) ∨
      ("ab cd" ∈ ["ab", "cd"] ∧ (5 : Int) < ("ab cd".length : Int)) :=
  chunk_text_length_bound ["ab", "cd"] 5 (by decide) "ab cd" (by decide)

open ContextHelpers in
/-- C4 counterexample: with a single sentence of length 5 and
`maxLength = 5 > 0`, `chunk_text` emits an empty first chunk, so joining
the chunks with single spaces yields a leading space and does not
reproduce the original sentence sequence. -/
theorem chunk_text_join_counterexample :
    0 < (5 : Int) ∧ chunk_text ["abcde"] 5 = ["", "abcde"] ∧
      joinSep " " (chunk_text ["abcde"] 5) ≠ joinSep " " ["abcde"] := by
  refine ⟨by decide, by decide, by decide⟩

open ContextHelpers in
/-- C4 (amended): for nonempty sentences, joining the chunks of
`chunk_text` with single spaces reproduces the space-join of the
original sentence sequence, provided the first sentence fits
(`len(first) + 1 ≤ maxLength`); otherwise an empty first chunk is
emitted (see the counterexample). -/
theorem chunk_text_join (sentences : List String) (maxLength : Int)
    (hne : ∀ s ∈ sentences, s ≠ "")
    (hfirst : sentences ≠ [] →
      (((sentences.head?.getD "").length : Int)) + 1 ≤ maxLength) :
    joinSep " " (chunk_text sentences maxLength) = joinSep " " sentences := by
  cases sentences with
  | nil => rfl
  | cons s rest =>
    have hs : s ≠ "" := hne s (List.mem_cons_self s rest)
    have hfit : (s.length : Int) + 1 ≤ maxLength := by
      have := hfirst (by simp)
      simpa using this
    rw [chunk_text, chunkGo]
    rw [if_pos (by rw [empty_len]; push_cast; omega), if_pos rfl]
    exact chunkGo_joinSep maxLength rest s hs
      (fun t ht => hne t (List.mem_cons_of_mem _ ht))

open ContextHelpers in
/-- Witness for the amended C4 at `sentences = ["ab", "cdefgh"]`,
`maxLength = 3`. -/
theorem chunk_text_join_witness :
    joinSep " " (chunk_text ["ab", "cdefgh"] 3) = joinSep " " ["ab", "cdefgh"] :=
  chunk_text_join ["ab", "cdefgh"] 3 (by decide) (by intro h; decide)

open ContextHelpers in
/-- C5 counterexample: `chunk_text` performs no validation of
`maxLength`; at `maxLength = 0` it returns normally (an empty chunk
followed by the sentence) instead of failing with an error. -/
theorem chunk_text_nonpos_counterexample :
    chunk_text ["hi"] 0 = ["", "hi"] := by decide

open ContextHelpers in
/-- C5 (amended): for `maxLength ≤ 0` and a nonempty sentence list,
`chunk_text` does not fail: it returns an empty first chunk followed by
every sentence as its own chunk. -/
theorem chunk_text_nonpos (sentences : List String) (maxLength : Int)
    (hmax : maxLength ≤ 0) (h0 : sentences ≠ [])
    (hne : ∀ s ∈ sentences, s ≠ "") :
    chunk_text sentences maxLength = "" :: sentences :=
  chunkGo_nonpos maxLength hmax sentences "" h0 hne

open ContextHelpers in
/-- Witness for the amended C5 at `sentences = ["a", "b"]`,
`maxLength = -1`. -/
theorem chunk_text_nonpos_witness :
    chunk_text ["a", "b"] (-1) = ["", "a", "b"] :=
  chunk_text_nonpos ["a", "b"] (-1) (by decide) (by decide) (by decide)

namespace FileManager

/-- A filesystem state: a partial map from paths to file contents. -/
abbrev FS := String → Option String

/-- Writing content `c` at path `p` (creates or overwrites). -/
def fsWrite (fs : FS) (p : String) (c : String) : FS :=
  fun q => if q = p then some c else fs q

/-- Removing the entry at path `p` (`os.remove`). -/
def fsRemove (fs : FS) (p : String) : FS :=
  fun q => if q = p then none else fs q

/-- `backup_file` from `io/file_manager.py`, as a pure transformer of the
filesystem state.  The steps mirror the source: remove a pre-existing
backup, copy `path` to `path + ".bak"` (a no-op returning the current
state when `path` does not exist, matching the caught exception), then
write `newContent` to `path`.  `writeFault = some leftover` injects a
failure during the write step that leaves `path` holding `leftover`
(covering truncation and partial writes); the handler then restores
`path` from the backup when the backup exists and removes the backup. -/
def backup_file (fs : FS) (path newContent : String) (writeFault : Option String) : FS :=
  let backupPath := path ++ ".bak"
  let fs1 := if (fs backupPath).isSome then fsRemove fs backupPath else fs
  match fs1 path with
  | none => fs1
  | some orig =>
    let fs2 := fsWrite fs1 backupPath orig
    match writeFault with
    | none => fsWrite fs2 path newContent
    | some leftover =>
      let fs3 := fsWrite fs2 path leftover
      match fs3 backupPath with
      | none => fs3
      | some b => fsRemove (fsWrite fs3 path b) backupPath

lemma path_ne_bak (path : String) : path ≠ path ++ ".bak" := by
  intro h
  have h1 := congrArg String.length h
  rw [String.length_append] at h1
  have h2 : (".bak" : String).length = 4 := rfl
  omega

end FileManager

open FileManager in
/-- C1: if `backup_file` fails during the write step (fault injection
leaving arbitrary `leftover` content in the target file), then after it
returns the target file holds its original content and no backup file
`path + ".bak"` remains on disk. -/
theorem backup_file_rollback (fs : FS) (path newContent leftover orig : String)
    (h : fs path = some orig) :
    backup_file fs path newContent (some leftover) path = some orig ∧
      backup_file fs path newContent (some leftover) (path ++ ".bak") = none := by
  have hne : path ≠ path ++ ".bak" := path_ne_bak path
  have h1 : (if (fs (path ++ ".bak")).isSome
      then fsRemove fs (path ++ ".bak") else fs) path = some orig := by
    split
    · rw [fsRemove, if_neg hne]; exact h
    · exact h
  constructor <;>
    simp [backup_file, h1, fsWrite, fsRemove, if_neg hne, if_neg (Ne.symm hne)]

open FileManager in
/-- Witness for C1 on a one-file filesystem with an injected
half-written state. -/
theorem backup_file_rollback_witness :
    backup_file (fun q => if q = "f.txt" then some "orig" else none)
        "f.txt" "new" (some "half") "f.txt" = some "orig" ∧
      backup_file (fun q => if q = "f.txt" then some "orig" else none)
        "f.txt" "new" (some "half") ("f.txt" ++ ".bak") = none :=
  backup_file_rollback (fun q => if q = "f.txt" then some "orig" else none)
    "f.txt" "new" "half" "orig" (by decide)

namespace OpenAIClient

/-- Observable trace of one `fetch_documentation` call: the returned
value, the number of transport calls made, and the backoff sleeps
performed (in seconds, in order). -/
structure FetchTrace where
  result : Option String
  calls : Nat
  sleeps : List Nat
deriving DecidableEq

/-- The retry loop of `fetch_documentation` from `api/openai_client.py`.
`transport attempt` models one `call_api` round for the given attempt
index: `none` is a transport failure or non-200 response (`call_api`
returned a falsy value), `some p` is a successful response whose body
parse outcome is `p` (`some doc` when `choices[0].message.function_call
.arguments` parses, `none` when the payload is unparseable — missing
`function_call`, malformed JSON, or missing fields, all caught and
returned as `None`).  A successful response returns immediately; a
failed transport sleeps `2 ^ attempt` and retries while attempts
remain; an exhausted loop returns `None`. -/
def fetchGo (transport : Nat → Option (Option String)) : Nat → Nat → FetchTrace
  | 0, _ => ⟨none, 0, []⟩
  | fuel + 1, attempt =>
    match transport attempt with
    | some p => ⟨p, 1, []⟩
    | none =>
      let r := fetchGo transport fuel (attempt + 1)
      ⟨r.result, r.calls + 1, 2 ^ attempt :: r.sleeps⟩

/-- `fetch_documentation session prompt semaphore model schema retry`:
the loop runs `for attempt in range(retry)` starting at attempt 0. -/
def fetch_documentation (transport : Nat → Option (Option String))
    (retry : Nat) : FetchTrace :=
  fetchGo transport retry 0

lemma fetchGo_all_fail (transport : Nat → Option (Option String))
    (hfail : ∀ i, transport i = none) :
    ∀ (fuel a : Nat),
      fetchGo transport fuel a
        = ⟨none, fuel, (List.range fuel).map (fun i => 2 ^ (a + i))⟩ := by
  intro fuel
  induction fuel with
  | zero => intro a; rfl
  | succ fuel ih =>
    intro a
    rw [fetchGo, hfail a]
    simp only [ih (a + 1)]
    refine congrArg (FetchTrace.mk none (fuel + 1)) ?_
    rw [List.range_succ_eq_map, List.map_cons, List.map_map]
    refine congrArg₂ _ (by rw [Nat.add_zero]) ?_
    exact List.map_congr_left (fun i _ => by
      simp only [Function.comp_apply]
      congr 1
      omega)

end OpenAIClient

open OpenAIClient in
/-- C6: with an always-failing transport, `fetch_documentation`
configured with `R ≥ 1` retries makes exactly `R` transport calls,
sleeps `2 ^ attempt` seconds after each failed attempt starting at
attempt 0, and returns `None` (retries exhausted). -/
theorem fetch_documentation_exhausts_retries
    (transport : Nat → Option (Option String)) (R : Nat) (hR : 1 ≤ R)
    (hfail : ∀ i, transport i = none) :
    fetch_documentation transport R
      = ⟨none, R, (List.range R).map (fun i => 2 ^ i)⟩ := by
  rw [fetch_documentation, fetchGo_all_fail transport hfail R 0]
  simp

open OpenAIClient in
/-- Witness for C6 with `R = 3`: three calls, sleeps 1, 2, 4 seconds,
result `None`. -/
theorem fetch_documentation_exhausts_retries_witness :
    fetch_documentation (fun _ => none) 3
      = ⟨none, 3, (List.range 3).map (fun i => 2 ^ i)⟩ :=
  fetch_documentation_exhausts_retries (fun _ => none) 3 (by decide)
    (fun _ => rfl)

namespace OpenAIClient

lemma fetchGo_stops_on_response (transport : Nat → Option (Option String))
    (p : Option String) :
    ∀ (k fuel a : Nat), k < fuel →
      (∀ i, i < k → transport (a + i) = none) →
      transport (a + k) = some p →
      fetchGo transport fuel a
        = ⟨p, k + 1, (List.range k).map (fun i => 2 ^ (a + i))⟩ := by
  intro k
  induction k with
  | zero =>
    intro fuel a hk _ hresp
    cases fuel with
    | zero => omega
    | succ fuel =>
      rw [Nat.add_zero] at hresp
      rw [fetchGo, hresp]
      rfl
  | succ k ih =>
    intro fuel a hk hbefore hresp
    cases fuel with
    | zero => omega
    | succ fuel =>
      have h0 : transport a = none := by
        have := hbefore 0 (Nat.succ_pos k)
        rwa [Nat.add_zero] at this
      rw [fetchGo, h0]
      have ih' := ih fuel (a + 1) (by omega)
        (fun i hi => by
          have h2 := hbefore (i + 1) (by omega)
          rwa [show a + (i + 1) = a + 1 + i by omega] at h2)
        (by rwa [show a + (k + 1) = a + 1 + k by omega] at hresp)
      simp only [ih']
      refine congrArg (FetchTrace.mk p (k + 1 + 1)) ?_
      rw [List.range_succ_eq_map, List.map_cons, List.map_map]
      refine congrArg₂ _ (by rw [Nat.add_zero]) ?_
      exact List.map_congr_left (fun i _ => by
        simp only [Function.comp_apply]
        congr 1
        omega)

end OpenAIClient

open OpenAIClient in
/-- C7: if the transport succeeds at attempt `k` but the payload body
cannot be parsed (modelled as parse outcome `none`), then
`fetch_documentation` returns `None` immediately after that attempt:
exactly `k + 1` transport calls are made, no sleep follows the failed
parse, and the remaining `R - (k + 1)` retries are never used. -/
theorem fetch_documentation_bad_response_no_retry
    (transport : Nat → Option (Option String)) (R k : Nat) (hk : k < R)
    (hbefore : ∀ i, i < k → transport i = none)
    (hresp : transport k = some none) :
    fetch_documentation transport R
      = ⟨none, k + 1, (List.range k).map (fun i => 2 ^ i)⟩ := by
  rw [fetch_documentation,
    fetchGo_stops_on_response transport none k R 0 hk
      (fun i hi => by simpa using hbefore i hi) (by simpa using hresp)]
  simp

open OpenAIClient in
/-- Witness for C7: the transport fails once, then returns a response
with an unparseable payload at attempt 1 while 3 retries remain; the
client stops after 2 calls with a single backoff sleep. -/
theorem fetch_documentation_bad_response_no_retry_witness :
    fetch_documentation (fun i => if i = 1 then some none else none) 5
      = ⟨none, 1 + 1, (List.range 1).map (fun i => 2 ^ i)⟩ :=
  fetch_documentation_bad_response_no_retry
    (fun i => if i = 1 then some none else none) 5 1 (by decide)
    (fun i hi => by
      have : i = 0 := by omega
      subst this
      rfl)
    (by rfl)

namespace PythonParser

/-- A top-level function or a method of the parsed Python AST, reduced
to the fields `insert_docstrings` reads and writes: the name and the
docstring expression at `body[0]` (`none` when `ast.get_docstring` finds
none). -/
structure PyFunc where
  name : String
  docstring : Option String
deriving DecidableEq

/-- A class of the parsed Python AST with its methods. -/
structure PyClass where
  name : String
  docstring : Option String
  methods : List PyFunc
deriving DecidableEq

/-- A top-level node of the module body. -/
inductive PyNode where
  | func : PyFunc → PyNode
  | cls : PyClass → PyNode
deriving DecidableEq

/-- The module tree produced by `ast.parse`. -/
abbrev PyModule := List PyNode

/-- One entry of the documentation payload for a function or method;
a missing `name`/`docstring` key (`dict.get` returning `None`) is
modelled as the empty string, which Python's `if name and doc:` guard
treats the same way. -/
structure DocEntry where
  name : String
  docstring : String
deriving DecidableEq

/-- One class entry of the documentation payload. -/
structure DocClassEntry where
  name : String
  docstring : String
  methods : List DocEntry
deriving DecidableEq

/-- The `documentation` argument of `insert_docstrings`. -/
structure PyDocumentation where
  functions : List DocEntry
  classes : List DocClassEntry
deriving DecidableEq

/-- Python `dict` lookup where later assignments overwrite earlier
ones: the last binding of the key wins. -/
def dictGet (m : List (String × String)) (k : String) : Option String :=
  (m.reverse.find? (fun p => p.1 == k)).map (·.2)

/-- The `docstrings_mapping` dict built by `insert_docstrings`:
function entries under their name, class entries under the class name,
method entries under `"{class_name}.{method_name}"`; entries with a
falsy name or docstring are skipped. -/
def docstrings_mapping (d : PyDocumentation) : List (String × String) :=
  (d.functions.filterMap fun f =>
    if f.name ≠ "" ∧ f.docstring ≠ "" then some (f.name, f.docstring) else none)
  ++ d.classes.flatMap fun c =>
    (if c.name ≠ "" ∧ c.docstring ≠ "" then [(c.name, c.docstring)] else [])
    ++ c.methods.filterMap fun m =>
      if m.name ≠ "" ∧ m.docstring ≠ ""
        then some (c.name ++ "." ++ m.name, m.docstring) else none

/-- Docstring insertion on one `FunctionDef`/`AsyncFunctionDef` node.
`insert_docstrings` (unlike `extract_structure`) never calls
`set_parents` on its freshly parsed tree, so
`getattr(node, 'parent', None)` is always `None` and the lookup key is
the bare node name even for methods. -/
def insertFunc (mp : List (String × String)) (f : PyFunc) : PyFunc :=
  match dictGet mp f.name with
  | some doc => { f with docstring := some doc }
  | none => f

/-- Docstring insertion on one `ClassDef` node; `ast.walk` also visits
its methods, which are looked up by bare name (see `insertFunc`). -/
def insertClass (mp : List (String × String)) (c : PyClass) : PyClass :=
  { name := c.name
    docstring :=
      match dictGet mp c.name with
      | some doc => some doc
      | none => c.docstring
    methods := c.methods.map (insertFunc mp) }

/-- The AST-level body of `insert_docstrings` from
`parser/python_parser.py`: build `docstrings_mapping`, then walk the
tree updating docstrings in place. -/
def insert_docstrings_ast (m : PyModule) (d : PyDocumentation) : PyModule :=
  let mp := docstrings_mapping d
  m.map fun n =>
    match n with
    | .func f => .func (insertFunc mp f)
    | .cls c => .cls (insertClass mp c)

/-- `insert_docstrings` from `parser/python_parser.py`.  `parsed` is the
outcome of the external `ast.parse(code)` (`none` = `SyntaxError`, which
the function's `except` handler turns into returning `code` unchanged);
`render` is the external `astor.to_source`. -/
def insert_docstrings (render : PyModule → String) (parsed : Option PyModule)
    (code : String) (d : PyDocumentation) : String :=
  match parsed with
  | none => code
  | some m => render (insert_docstrings_ast m d)

/-- Names of the top-level functions of `extract_structure` (which does
set parents, so methods are excluded). -/
def extracted_function_names (m : PyModule) : List String :=
  m.filterMap fun n =>
    match n with
    | .func f => some f.name
    | .cls _ => none

/-- Names of the classes of `extract_structure`. -/
def extracted_class_names (m : PyModule) : List String :=
  m.filterMap fun n =>
    match n with
    | .func _ => none
    | .cls c => some c.name

/-- `(class, method)` name pairs of `extract_structure`. -/
def extracted_method_names (m : PyModule) : List (String × String) :=
  m.flatMap fun n =>
    match n with
    | .func _ => []
    | .cls c => c.methods.map fun f => (c.name, f.name)

end PythonParser

/-- The documentation shape consumed by the CSS and HTML adapters: an
optional `summary` and an optional `changes_made` list (absent keys are
`none`). -/
structure SummaryDocumentation where
  summary : Option String
  changes_made : Option (List String)
deriving DecidableEq

namespace CssParser

/-- The `comment_text` built by `insert_comments` in
`parser/css_parser.py`: `"Summary: ..."` and `"Changes: ..."` parts
joined by `" | "`. -/
def comment_text (d : SummaryDocumentation) : String :=
  ContextHelpers.joinSep " | "
    ((match d.summary with
      | some s => ["Summary: " ++ s]
      | none => [])
    ++ (match d.changes_made with
      | some cs => ["Changes: " ++ ContextHelpers.joinSep "; " cs]
      | none => []))

/-- `insert_comments` from `parser/css_parser.py`: unconditionally
prepends `/* comment_text */` and a newline to the code. -/
def insert_comments (code : String) (d : SummaryDocumentation) : String :=
  "/* " ++ comment_text d ++ " */\n" ++ code

end CssParser

namespace HtmlParser

/-- The `comment_text` built by `insert_comments` in
`parser/html_parser.py` (same construction as the CSS adapter). -/
def comment_text (d : SummaryDocumentation) : String :=
  ContextHelpers.joinSep " | "
    ((match d.summary with
      | some s => ["Summary: " ++ s]
      | none => [])
    ++ (match d.changes_made with
      | some cs => ["Changes: " ++ ContextHelpers.joinSep "; " cs]
      | none => []))

/-- `insert_comments` from `parser/html_parser.py`.  `soupIns ct code`
models the external BeautifulSoup steps (parse `code`, build
`Comment(" ct ")`, insert it, `str(soup)`); `none` models an exception
in that pipeline, which the `except` handler turns into returning
`code` unchanged. -/
def insert_comments (soupIns : String → String → Option String)
    (code : String) (d : SummaryDocumentation) : String :=
  match soupIns (comment_text d) code with
  | some out => out
  | none => code

end HtmlParser

namespace PyStr

/-- Model of Python `str.split(sep)` for a one-character separator:
splits at every occurrence, keeping empty pieces. -/
def splitChar (c : Char) : List Char → List (List Char)
  | [] => [[]]
  | x :: xs =>
    match splitChar c xs with
    | [] => [[]]
    | h :: t => if x = c then [] :: h :: t else (x :: h) :: t

/-- Model of Python `str.strip()`: removes leading and trailing
whitespace. -/
def strip (l : List Char) : List Char :=
  ((l.dropWhile Char.isWhitespace).reverse.dropWhile Char.isWhitespace).reverse

/-- Model of Python `str.startswith`. -/
def starts (pre l : List Char) : Bool :=
  pre.isPrefixOf l

/-- Model of Python `str.endswith`. -/
def ends (suf l : List Char) : Bool :=
  suf.reverse.isPrefixOf l.reverse

end PyStr

namespace JavaParser

/-- One function/method entry of the Java documentation payload.  The
payload is deserialized JSON, so the `name` key may be absent
(`none`): the source accesses it with `entry['name']`, which raises
`KeyError` in that case; `docstring` is read with `.get`, which is
total. -/
structure JavaDocEntry where
  name : Option String
  docstring : Option String
deriving DecidableEq

/-- One class entry of the Java documentation payload. -/
structure JavaDocClass where
  name : Option String
  docstring : Option String
  methods : List JavaDocEntry
deriving DecidableEq

/-- The `documentation` argument of the Java `insert_docstrings`. -/
structure JavaDocumentation where
  classes : List JavaDocClass
  functions : List JavaDocEntry
deriving DecidableEq

/-- `next((x for x in entries if x['name'] == nm), None)`: the first
entry whose `name` equals `nm`, `Except.error` when an entry without a
`name` key is reached first (`KeyError`). -/
def findByName {α : Type} (getName : α → Option String) :
    List α → String → Except Unit (Option α)
  | [], _ => .ok none
  | e :: rest, nm =>
    match getName e with
    | none => .error ()
    | some n => if n = nm then .ok (some e) else findByName getName rest nm

/-- `format_docstring_java`: wraps the docstring in a `/** ... */`
block. -/
def format_docstring_java (docstring : String) : List String :=
  ["/**"]
    ++ (PyStr.splitChar '\n' (PyStr.strip docstring.toList)).map
      (fun l => " * " ++ String.mk l)
    ++ [" */"]

/-- `extract_method_name`: `signature.split('(')[0].split(' ')[-1]`. -/
def extract_method_name (stripped : List Char) : List Char :=
  ((PyStr.splitChar ' ' ((PyStr.splitChar '(' stripped).head?.getD [])).getLast?).getD []

/-- The class-name extraction of the class branch:
`stripped_line.split(' ')[-1].split('{')[0]`. -/
def classNameOfLine (stripped : List Char) : List Char :=
  ((PyStr.splitChar '{' (((PyStr.splitChar ' ' stripped).getLast?).getD [])).head?).getD []

/-- The class-name extraction inside `get_enclosing_class`:
`line.split(' ')[1].split('{')[0]`. -/
def gecClassName (line : List Char) : List Char :=
  ((PyStr.splitChar '{' (((PyStr.splitChar ' ' line).get? 1).getD [])).head?).getD []

/-- The backward scan of `get_enclosing_class`, walking from the given
index down to 0 while counting braces. -/
def gecGo (lines : List (List Char)) : Nat → Int → Option (List Char)
  | 0, braces =>
    let line := PyStr.strip ((lines.get? 0).getD [])
    let b1 := if PyStr.ends "\x7d".toList line
      then braces + (line.count '}' : Int) else braces
    if PyStr.ends "\x7b".toList line then
      let b2 := b1 - (line.count '{' : Int)
      if b2 = -1 ∧ PyStr.starts "class ".toList line
        then some (gecClassName line) else none
    else none
  | i + 1, braces =>
    let line := PyStr.strip ((lines.get? (i + 1)).getD [])
    let b1 := if PyStr.ends "\x7d".toList line
      then braces + (line.count '}' : Int) else braces
    if PyStr.ends "\x7b".toList line then
      let b2 := b1 - (line.count '{' : Int)
      if b2 = -1 ∧ PyStr.starts "class ".toList line
        then some (gecClassName line)
        else gecGo lines i b2
    else gecGo lines i b1

/-- `get_enclosing_class` from `parser/java_parser.py`. -/
def get_enclosing_class (lines : List (List Char)) (index : Nat) : Option (List Char) :=
  gecGo lines index 0

/-- The comment block contributed by a found documentation entry:
nothing when the entry is absent or its docstring is falsy. -/
def docLines (docstring : Option String) : List String :=
  match docstring with
  | some ds => if ds ≠ "" then format_docstring_java ds else []
  | none => []

/-- The `while index < len(lines)` loop of the Java `insert_docstrings`:
for each line, optionally emit a class docstring block and a method
docstring block before the line itself.  `lines` is the full line list
(used by the backward scan); the second list argument is the remaining
tail, `index` its position. -/
def insertLoop (docs : JavaDocumentation) (lines : List (List Char)) :
    List (List Char) → Nat → Except Unit (List String)
  | [], _ => .ok []
  | line :: rest, index => do
    let stripped := PyStr.strip line
    let clsPart ←
      if PyStr.starts "public class".toList stripped
          || PyStr.starts "class".toList stripped then do
        let classDoc ← findByName JavaDocClass.name docs.classes
          (String.mk (classNameOfLine stripped))
        pure (match classDoc with
          | some cd => docLines cd.docstring
          | none => [])
      else pure []
    let methodPart ←
      if stripped.contains '(' &&
          (PyStr.ends ") \x7b".toList stripped || PyStr.ends ");".toList stripped) then do
        let methodName := String.mk (extract_method_name stripped)
        match get_enclosing_class lines index with
        | some parentClass => do
          let classDoc ← findByName JavaDocClass.name docs.classes
            (String.mk parentClass)
          match classDoc with
          | some cd => do
            let methodDoc ← findByName JavaDocEntry.name cd.methods methodName
            pure (match methodDoc with
              | some md => docLines md.docstring
              | none => [])
          | none => pure []
        | none => do
          let funcDoc ← findByName JavaDocEntry.name docs.functions methodName
          pure (match funcDoc with
            | some fd => docLines fd.docstring
            | none => [])
      else pure []
    let tail ← insertLoop docs lines rest (index + 1)
    pure (clsPart ++ methodPart ++ [String.mk line] ++ tail)

/-- `insert_docstrings` from `parser/java_parser.py`: run the line loop
on `code.split('\n')`; any exception (`KeyError` from an entry missing
its `name`) is caught and the original code returned. -/
def insert_docstrings (code : String) (docs : JavaDocumentation) : String :=
  match insertLoop docs (PyStr.splitChar '\n' code.toList)
      (PyStr.splitChar '\n' code.toList) 0 with
  | .ok outLines => ContextHelpers.joinSep "\n" (outLines)
  | .error _ => code

end JavaParser

namespace PythonParser

lemma dictGet_nil (k : String) : dictGet [] k = none := rfl

lemma insertFunc_nil (f : PyFunc) : insertFunc [] f = f := rfl

lemma insertClass_nil (c : PyClass) : insertClass [] c = c := by
  rw [insertClass]
  have hm : c.methods.map (insertFunc []) = c.methods := by
    rw [List.map_congr_left (fun f _ => insertFunc_nil f), List.map_id']
  rw [dictGet_nil, hm]

lemma docstrings_mapping_all_empty (d : PyDocumentation)
    (hf : ∀ f ∈ d.functions, f.docstring = "")
    (hc : ∀ c ∈ d.classes, c.docstring = "" ∧ ∀ me ∈ c.methods, me.docstring = "") :
    docstrings_mapping d = [] := by
  rw [docstrings_mapping]
  rw [List.filterMap_eq_nil_iff.mpr
    (fun f hfm => if_neg (fun hco => hco.2 (hf f hfm)))]
  rw [List.nil_append]
  rw [List.flatMap_eq_nil_iff.mpr ?_]
  intro c hcm
  rw [if_neg (fun hco => hco.2 (hc c hcm).1)]
  rw [List.nil_append]
  exact List.filterMap_eq_nil_iff.mpr
    (fun me hme => if_neg (fun hco => hco.2 ((hc c hcm).2 me hme)))

lemma insert_docstrings_ast_nil_mapping (m : PyModule) (d : PyDocumentation)
    (hmp : docstrings_mapping d = []) :
    insert_docstrings_ast m d = m := by
  rw [insert_docstrings_ast, hmp]
  have hnode : ∀ n : PyNode,
      (match n with
        | .func f => .func (insertFunc [] f)
        | .cls c => PyNode.cls (insertClass [] c)) = n := by
    intro n
    cases n with
    | func f => rfl
    | cls c => exact congrArg PyNode.cls (insertClass_nil c)
  rw [List.map_congr_left (fun n _ => hnode n), List.map_id']

end PythonParser

/-- C2 counterexample: the CSS adapter's `insert_comments` never
returns the source unchanged — even with an entirely absent
documentation payload it prepends an (empty) comment block. -/
theorem insert_comments_not_identity :
    CssParser.insert_comments "a \x7b color: red; \x7d" ⟨none, none⟩
      ≠ "a \x7b color: red; \x7d" := by decide

/-- C2 (amended): with an all-empty documentation payload, the CSS
adapter returns the source with an empty comment block `/*  */`
prepended (not the source itself), and the Python adapter leaves the
parsed tree unmodified (all empty docstrings are filtered out of the
mapping), so its output is the `astor` reformatting of the source
rather than the source text. -/
theorem insert_documentation_empty_doc (code : String)
    (m : PythonParser.PyModule) (d : PythonParser.PyDocumentation)
    (hf : ∀ f ∈ d.functions, f.docstring = "")
    (hc : ∀ c ∈ d.classes,
      c.docstring = "" ∧ ∀ me ∈ c.methods, me.docstring = "") :
    CssParser.insert_comments code ⟨none, none⟩ = "/*  */\n" ++ code ∧
      PythonParser.insert_docstrings_ast m d = m :=
  ⟨rfl,
   PythonParser.insert_docstrings_ast_nil_mapping m d
     (PythonParser.docstrings_mapping_all_empty d hf hc)⟩

/-- Witness for the amended C2: a payload whose function, class and
method docstrings are all empty. -/
theorem insert_documentation_empty_doc_witness :
    CssParser.insert_comments "a \x7b color: red; \x7d" ⟨none, none⟩
        = "/*  */\n" ++ "a \x7b color: red; \x7d" ∧
      PythonParser.insert_docstrings_ast
          [.func ⟨"f", some "old"⟩]
          ⟨[⟨"f", ""⟩], [⟨"K", "", [⟨"m", ""⟩]⟩]⟩
        = [.func ⟨"f", some "old"⟩] :=
  insert_documentation_empty_doc "a \x7b color: red; \x7d"
    [.func ⟨"f", some "old"⟩] ⟨[⟨"f", ""⟩], [⟨"K", "", [⟨"m", ""⟩]⟩]⟩
    (by decide) (by decide)

/-- C8: evaluation at the failing input.  The extracted structure of
`class C: def m(self): ...` has no top-level function named `m` (and
nothing named `ghost`), yet `insert_docstrings` annotates the method
`C.m` with the docstring of the unmatched top-level function entry
`m`: `insert_docstrings` never calls `set_parents` on its freshly
parsed tree (only `extract_structure` does), so the method is looked up
under its bare name instead of `C.m`, and the unmatched entry is
inserted rather than dropped. -/
theorem insert_docstrings_bare_name_capture :
    PythonParser.extracted_function_names
        [.cls ⟨"C", none, [⟨"m", none⟩]⟩] = [] ∧
      PythonParser.extracted_class_names
        [.cls ⟨"C", none, [⟨"m", none⟩]⟩] = ["C"] ∧
      PythonParser.extracted_method_names
        [.cls ⟨"C", none, [⟨"m", none⟩]⟩] = [("C", "m")] ∧
      PythonParser.insert_docstrings_ast
          [.cls ⟨"C", none, [⟨"m", none⟩]⟩]
          ⟨[⟨"m", "D"⟩, ⟨"ghost", "G"⟩], []⟩
        = [.cls ⟨"C", none, [⟨"m", some "D"⟩]⟩] :=
  ⟨rfl, rfl, rfl, by decide⟩

/-- C9: every insertion operation is a total function; whenever its
fallible inner step fails, it returns the original source text
unchanged (the `except` handlers of `python_parser.insert_docstrings`,
`html_parser.insert_comments` and `java_parser.insert_docstrings`), and
the CSS adapter's body cannot fail and always returns the prefixed
source. -/
theorem insertion_never_raises :
    (∀ (render : PythonParser.PyModule → String) (code : String)
        (d : PythonParser.PyDocumentation),
      PythonParser.insert_docstrings render none code d = code) ∧
      (∀ (soupIns : String → String → Option String) (code : String)
          (d : SummaryDocumentation),
        soupIns (HtmlParser.comment_text d) code = none →
        HtmlParser.insert_comments soupIns code d = code) ∧
      (∀ (code : String) (d : SummaryDocumentation),
        CssParser.insert_comments code d
          = "/* " ++ CssParser.comment_text d ++ " */\n" ++ code) ∧
      (∀ (code : String) (docs : JavaParser.JavaDocumentation),
        JavaParser.insertLoop docs (PyStr.splitChar '\n' code.toList)
            (PyStr.splitChar '\n' code.toList) 0 = .error () →
        JavaParser.insert_docstrings code docs = code) := by
  refine ⟨fun _ _ _ => rfl, fun soupIns code d h => ?_, fun _ _ => rfl,
    fun code docs h => ?_⟩
  · rw [HtmlParser.insert_comments, h]
  · rw [JavaParser.insert_docstrings, h]

/-- Witness for C9: a failed `ast.parse`, a failed BeautifulSoup
pipeline, the CSS adapter, and a Java payload entry missing its `name`
key (`KeyError` inside the loop), each returning the original source. -/
theorem insertion_never_raises_witness :
    PythonParser.insert_docstrings (fun _ => "RENDERED") none
        "def f(: pass" ⟨[], []⟩ = "def f(: pass" ∧
      HtmlParser.insert_comments (fun _ _ => none) "<p>x</p>"
        ⟨some "s", none⟩ = "<p>x</p>" ∧
      CssParser.insert_comments "b \x7b \x7d" ⟨none, none⟩
        = "/* " ++ CssParser.comment_text ⟨none, none⟩ ++ " */\n" ++ "b \x7b \x7d" ∧
      JavaParser.insert_docstrings "class X \x7b" ⟨[⟨none, none, []⟩], []⟩
        = "class X \x7b" :=
  ⟨insertion_never_raises.1 _ _ _,
   insertion_never_raises.2.1 _ _ _ rfl,
   insertion_never_raises.2.2.1 _ _,
   insertion_never_raises.2.2.2 _ _ rfl⟩

namespace FileManager

/-- A directory tree: the regular files of the directory (name and
content bytes) and its subdirectories, mirroring the
`(root, dirs, files)` triples produced by `os.walk`. -/
inductive Dir where
  | mk : List (String × List Nat) → List (String × Dir) → Dir

/-- The regular files of a directory. -/
def Dir.files : Dir → List (String × List Nat)
  | .mk fs _ => fs

/-- The subdirectories of a directory. -/
def Dir.subdirs : Dir → List (String × Dir)
  | .mk _ ds => ds

/-- Extension extraction modelling `os.path.splitext` on a file name:
the suffix from the last dot, except that all-leading dots carry no
extension (`".bashrc"` has none, `"a.tar.gz"` has `".gz"`). -/
def splitextExt (name : List Char) : List Char :=
  let rest := name.dropWhile (· = '.')
  if rest.contains '.' then
    rest.foldl
      (fun acc c =>
        if c = '.' then ['.'] else if acc.isEmpty then [] else acc ++ [c]) []
  else []

/-- `ext.lower()` of the extension of a file name. -/
def extLower (name : String) : String :=
  String.mk ((splitextExt name.toList).map Char.toLower)

/-- `validate_file` from `io/file_manager.py`: the lower-cased extension
must not be in `skip_types` and the first 1024 bytes must not contain a
null byte.  The `os.path.isfile` check is represented by the walk model
supplying only regular files (see `FileAt` in the discovery theorem). -/
def validate_file (name : String) (bytes : List Nat)
    (skip_types : List String) : Bool :=
  !(skip_types.contains (extLower name)) && !((bytes.take 1024).contains 0)

mutual
/-- `os.walk(.., topdown=True)` with the in-place pruning
`dirs[:] = [d for d in dirs if d not in excluded_dirs]`: the files of
the current directory first, then the non-excluded subdirectories in
order.  Yields `(relative dir components, file name, bytes)`. -/
def walkDir (ex : List String) (base : List String) :
    Dir → List (List String × String × List Nat)
  | .mk files subs =>
    files.map (fun fb => (base, fb.1, fb.2)) ++ walkSubs ex base subs

/-- The descent of `os.walk` into the pruned subdirectory list. -/
def walkSubs (ex : List String) (base : List String) :
    List (String × Dir) → List (List String × String × List Nat)
  | [] => []
  | (n, d) :: rest =>
    (if ex.contains n then [] else walkDir ex (base ++ [n]) d)
      ++ walkSubs ex base rest
end

/-- `get_all_file_paths` from `io/file_manager.py`: walk the tree from
the repository root, skip files in `excluded_files`, keep files passing
`validate_file`, and return `os.path.join(root, file)` as a component
list `repo_path ++ dirs ++ [name]`.  Note that pruning applies only to
subdirectories: the components of `repo_path` itself are never checked
against `excluded_dirs`. -/
def get_all_file_paths (repo_path : List String) (tree : Dir)
    (excluded_dirs excluded_files skip_types : List String) :
    List (List String) :=
  (walkDir excluded_dirs [] tree).filterMap fun t =>
    if excluded_files.contains t.2.1 then none
    else if validate_file t.2.1 t.2.2 skip_types
      then some (repo_path ++ t.1 ++ [t.2.1])
      else none

/-- The file `name` with content `bytes` exists in the tree under the
relative directory components `rel`. -/
def FileAt : Dir → List String → String → List Nat → Prop
  | d, [], nm, b => (nm, b) ∈ d.files
  | d, c :: rel, nm, b => ∃ d', (c, d') ∈ d.subdirs ∧ FileAt d' rel nm b

lemma walkSubs_mem {ex base : List String} :
    ∀ (subs : List (String × Dir)) (t : List String × String × List Nat),
      t ∈ walkSubs ex base subs →
      ∃ n d, (n, d) ∈ subs ∧ ex.contains n = false ∧
        t ∈ walkDir ex (base ++ [n]) d := by
  intro subs
  induction subs with
  | nil => intro t ht; simp [walkSubs] at ht
  | cons nd rest ih =>
    intro t ht
    obtain ⟨n, d⟩ := nd
    rw [walkSubs] at ht
    rcases List.mem_append.mp ht with h1 | h2
    · by_cases hex : ex.contains n
      · rw [if_pos hex] at h1; simp at h1
      · rw [if_neg hex] at h1
        exact ⟨n, d, List.mem_cons_self _ _, by simpa using hex, h1⟩
    · obtain ⟨n', d', hmem, hexn, hw⟩ := ih t h2
      exact ⟨n', d', List.mem_cons_of_mem _ hmem, hexn, hw⟩

lemma walkDir_sound :
    ∀ (k : Nat) (d : Dir), sizeOf d ≤ k →
      ∀ (ex base dirs : List String) (nm : String) (b : List Nat),
        (dirs, nm, b) ∈ walkDir ex base d →
        ∃ rel, dirs = base ++ rel ∧ FileAt d rel nm b ∧
          ∀ c ∈ rel, ex.contains c = false := by
  intro k
  induction k with
  | zero =>
    intro d hk
    exfalso
    cases d with
    | mk files subs =>
      rw [Dir.mk.sizeOf_spec] at hk
      omega
  | succ k ih =>
    intro d hk ex base dirs nm b hmem
    cases d with
    | mk files subs =>
      rw [walkDir] at hmem
      rcases List.mem_append.mp hmem with h1 | h2
      · obtain ⟨fb, hfb, heq⟩ := List.mem_map.mp h1
        obtain ⟨heq1, heq2⟩ := Prod.mk.injEq _ _ _ _ ▸ heq
        obtain ⟨heq3, heq4⟩ := Prod.mk.injEq _ _ _ _ ▸ heq2
        refine ⟨[], by rw [← heq1, List.append_nil], ?_, by simp⟩
        show (nm, b) ∈ files
        rw [← heq3, ← heq4]
        simpa using hfb
      · obtain ⟨n, d', hnd, hex, hw⟩ := walkSubs_mem subs _ h2
        have hsz : sizeOf d' ≤ k := by
          have hlt := List.sizeOf_lt_of_mem hnd
          have hp2 : sizeOf (n, d') = 1 + sizeOf n + sizeOf d' :=
            Prod.mk.sizeOf_spec n d'
          rw [Dir.mk.sizeOf_spec] at hk
          omega
        obtain ⟨rel, hdirs, hat, hforall⟩ :=
          ih d' hsz ex (base ++ [n]) dirs nm b hw
        refine ⟨n :: rel, by rw [hdirs]; simp, ⟨d', hnd, hat⟩, ?_⟩
        intro c hc
        rcases List.mem_cons.mp hc with rfl | hc'
        · exact hex
        · exact hforall c hc'

end FileManager

open FileManager in
/-- C10 counterexample: with `repo_path = "build"` and
`excluded_dirs = {"build"}`, the file `build/a.txt` is still returned,
although the component `"build"` of its directory path is in the
excluded-dirs set — `os.walk` pruning never checks the root path
itself. -/
theorem get_all_file_paths_excluded_root :
    ["build", "a.txt"] ∈ get_all_file_paths ["build"]
        (Dir.mk [("a.txt", [65])] []) ["build"] [] [] ∧
      "build" ∈ List.dropLast ["build", "a.txt"] ∧
      "build" ∈ (["build"] : List String) := by decide

open FileManager in
/-- C10 (amended): every path returned by `get_all_file_paths` is
`repo_path ++ dirs ++ [name]` for an existing regular file of the tree,
passes `validate_file` (lower-cased extension not in the skip set, no
null byte in the first 1024 bytes), has a name outside the
excluded-files set, and no directory component strictly below the
repository root is in the excluded-dirs set (the components of
`repo_path` itself are not checked — see the counterexample). -/
theorem get_all_file_paths_validated (repo_path : List String) (tree : Dir)
    (excluded_dirs excluded_files skip_types : List String)
    (p : List String)
    (hp : p ∈ get_all_file_paths repo_path tree
      excluded_dirs excluded_files skip_types) :
    ∃ dirs name bytes,
      p = repo_path ++ dirs ++ [name] ∧
        FileAt tree dirs name bytes ∧
        validate_file name bytes skip_types = true ∧
        excluded_files.contains name = false ∧
        ∀ c ∈ dirs, excluded_dirs.contains c = false := by
  rw [get_all_file_paths] at hp
  obtain ⟨t, htm, heq⟩ := List.mem_filterMap.mp hp
  obtain ⟨dirs0, name0, bytes0⟩ := t
  by_cases hexf : excluded_files.contains name0
  · rw [if_pos hexf] at heq; simp at heq
  · rw [if_neg hexf] at heq
    by_cases hval : validate_file name0 bytes0 skip_types
    · rw [if_pos hval] at heq
      obtain ⟨rel, hdirs, hat, hforall⟩ :=
        walkDir_sound (sizeOf tree) tree le_rfl excluded_dirs [] dirs0
          name0 bytes0 htm
      refine ⟨dirs0, name0, bytes0, ?_, ?_, hval, by simpa using hexf, ?_⟩
      · rw [← Option.some_inj.mp heq]
      · rw [hdirs, List.nil_append]
        exact hat
      · intro c hc
        rw [hdirs, List.nil_append] at hc
        exact hforall c hc
    · rw [if_neg hval] at heq; simp at heq

open FileManager in
/-- Witness for the amended C10 on a tree with an excluded
subdirectory, an excluded file name and a skipped extension. -/
theorem get_all_file_paths_validated_witness :
    ∃ dirs name bytes,
      (["repo", "src", "main.py"] : List String)
          = ["repo"] ++ dirs ++ [name] ∧
        FileAt (Dir.mk [("skip.txt", [65])]
            [("src", Dir.mk [("main.py", [104, 105]), ("app.exe", [70])] []),
             ("node_modules", Dir.mk [("x.py", [65])] [])])
          dirs name bytes ∧
        validate_file name bytes [".exe"] = true ∧
        (["skip.txt"] : List String).contains name = false ∧
        ∀ c ∈ dirs, (["node_modules"] : List String).contains c = false :=
  get_all_file_paths_validated ["repo"]
    (Dir.mk [("skip.txt", [65])]
      [("src", Dir.mk [("main.py", [104, 105]), ("app.exe", [70])] []),
       ("node_modules", Dir.mk [("x.py", [65])] [])])
    ["node_modules"] ["skip.txt"] [".exe"] ["repo", "src", "main.py"]
    (by decide)
